import Mathlib

/-!
Verification of the marketData pattern-drawing tool: pattern codec
(CSV stroke encode/decode), chart coordinate mapping, stroke recorder
state machine, and nearest-time lookup, shallowly embedded from the
Python sources (data_handler.py, ultra_simple_main.py, web_app.py,
simple_chart_canvas.py).
-/

namespace MarketData

/-! ## Datetime model (Python `datetime` restricted to what the code uses) -/

/-- A Python `datetime` value as produced by `datetime.strptime`. -/
structure PyDateTime where
  year : ℕ
  month : ℕ
  day : ℕ
  hour : ℕ
  minute : ℕ
  second : ℕ
deriving DecidableEq, Repr

instance : Inhabited PyDateTime := ⟨⟨1900, 1, 1, 0, 0, 0⟩⟩

/-- Gregorian leap-year test, as in Python's `calendar`. -/
def isLeap (y : ℕ) : Bool := y % 4 = 0 && (y % 100 ≠ 0 || y % 400 = 0)

/-- Number of days in a month (months are 1-12). -/
def daysInMonth (y m : ℕ) : ℕ :=
  if m = 2 then (if isLeap y then 29 else 28)
  else if m = 4 ∨ m = 6 ∨ m = 9 ∨ m = 11 then 30
  else 31

/-- Days since the civil epoch 1970-01-01 (Gregorian, proleptic); the
standard days-from-civil computation underlying `datetime.toordinal`
differences. Valid for `y ≥ 1`. -/
def daysFromCivil (y m d : ℕ) : ℤ :=
  let y' := if m ≤ 2 then y - 1 else y
  let era := y' / 400
  let yoe := y' % 400
  let mp := (m + 9) % 12
  let doy := (153 * mp + 2) / 5 + d - 1
  let doe := yoe * 365 + yoe / 4 - yoe / 100 + doy
  (((era * 146097 + doe : ℕ) : ℤ)) - 719468

/-- Seconds since the epoch; models `(dt2 - dt1).total_seconds()` as
`toSeconds dt2 - toSeconds dt1`. -/
def toSeconds (dt : PyDateTime) : ℤ :=
  daysFromCivil dt.year dt.month dt.day * 86400
    + dt.hour * 3600 + dt.minute * 60 + dt.second

/-- Validation performed by the `datetime` constructor after a
successful format match (Python raises `ValueError` otherwise). -/
def validateDT (r : PyDateTime) : Option PyDateTime :=
  if 1 ≤ r.year ∧ r.year ≤ 9999 ∧ 1 ≤ r.month ∧ r.month ≤ 12 ∧
     1 ≤ r.day ∧ r.day ≤ daysInMonth r.year r.month ∧
     r.hour ≤ 23 ∧ r.minute ≤ 59 ∧ r.second ≤ 59
  then some r else none

/-! ## strptime / strftime for the formats the code uses

Python's `_strptime` compiles each directive to a regex:
`%m ↦ 1[0-2]|0[1-9]|[1-9]`, `%d ↦ 3[01]|[12]\d|0[1-9]|[1-9]`,
`%H ↦ 2[0-3]|[0-1]\d|\d`, `%M ↦ [0-5]\d|\d`, `%S ↦ 6[0-1]|[0-5]\d|\d`,
`%Y ↦ \d\d\d\d`, with the whole input required to be consumed.  The
candidate lists below reproduce that alternation order (two-digit
matches tried before one-digit), and `matchToks` backtracks exactly as
the regex engine does. -/

/-- Decimal digit value of a character, if it is a digit. -/
def digitVal (c : Char) : Option ℕ :=
  if c.isDigit then some (c.toNat - 48) else none

/-- Candidates for a 1-2 digit numeric directive: the two-digit match
(value within `[lo2, hi2]`) first, then the one-digit match (value
within `[lo1, hi1]`), mirroring the regex alternation order. -/
def numCand2 (lo2 hi2 lo1 hi1 : ℕ) : List Char → List (ℕ × List Char)
  | c1 :: c2 :: rest =>
    match digitVal c1, digitVal c2 with
    | some a, some b =>
      (if lo2 ≤ 10 * a + b ∧ 10 * a + b ≤ hi2 then [(10 * a + b, rest)] else [])
        ++ (if lo1 ≤ a ∧ a ≤ hi1 then [(a, c2 :: rest)] else [])
    | some a, none => if lo1 ≤ a ∧ a ≤ hi1 then [(a, c2 :: rest)] else []
    | none, _ => []
  | [c1] =>
    match digitVal c1 with
    | some a => if lo1 ≤ a ∧ a ≤ hi1 then [(a, [])] else []
    | none => []
  | [] => []

/-- Candidate for `%Y`: exactly four digits. -/
def cand4 : List Char → List (ℕ × List Char)
  | c1 :: c2 :: c3 :: c4 :: rest =>
    match digitVal c1, digitVal c2, digitVal c3, digitVal c4 with
    | some a, some b, some c, some d => [(1000 * a + 100 * b + 10 * c + d, rest)]
    | _, _, _, _ => []
  | _ => []

/-- Format directives appearing in the formats the code tries. -/
inductive Tok where
  | lit (c : Char)
  | tm | td | ty | th | tmin | ts
deriving DecidableEq, Repr

/-- Backtracking matcher for a compiled format against the input
characters, threading the partially-filled datetime (defaults
1900-01-01 00:00:00 as in `_strptime`). Requires the whole input to be
consumed, as strptime raises on unconverted trailing data. -/
def matchToks : List Tok → List Char → PyDateTime → Option PyDateTime
  | [], [], r => some r
  | [], _ :: _, _ => none
  | Tok.lit c :: ts', cs, r =>
    match cs with
    | x :: rest => if x = c then matchToks ts' rest r else none
    | [] => none
  | Tok.tm :: ts', cs, r =>
    (numCand2 1 12 1 9 cs).findSome? fun p => matchToks ts' p.2 { r with month := p.1 }
  | Tok.td :: ts', cs, r =>
    (numCand2 1 31 1 9 cs).findSome? fun p => matchToks ts' p.2 { r with day := p.1 }
  | Tok.ty :: ts', cs, r =>
    (cand4 cs).findSome? fun p => matchToks ts' p.2 { r with year := p.1 }
  | Tok.th :: ts', cs, r =>
    (numCand2 0 23 0 9 cs).findSome? fun p => matchToks ts' p.2 { r with hour := p.1 }
  | Tok.tmin :: ts', cs, r =>
    (numCand2 0 59 0 9 cs).findSome? fun p => matchToks ts' p.2 { r with minute := p.1 }
  | Tok.ts :: ts', cs, r =>
    (numCand2 0 61 0 9 cs).findSome? fun p => matchToks ts' p.2 { r with second := p.1 }

/-- Model of `datetime.strptime(s, fmt)` for a compiled format. -/
def strptimeWith (toks : List Tok) (s : String) : Option PyDateTime :=
  (matchToks toks s.toList default).bind validateDT

/-- Compiled `'%m/%d/%Y %H:%M'`. -/
def fmtMDYHM : List Tok :=
  [Tok.tm, Tok.lit '/', Tok.td, Tok.lit '/', Tok.ty, Tok.lit ' ', Tok.th, Tok.lit ':', Tok.tmin]

/-- Compiled `'%m/%d/%Y %H:%M:%S'`. -/
def fmtMDYHMS : List Tok := fmtMDYHM ++ [Tok.lit ':', Tok.ts]

/-- Compiled `'%Y-%m-%d %H:%M:%S'`. -/
def fmtYMDHMS : List Tok :=
  [Tok.ty, Tok.lit '-', Tok.tm, Tok.lit '-', Tok.td, Tok.lit ' ',
   Tok.th, Tok.lit ':', Tok.tmin, Tok.lit ':', Tok.ts]

/-- Compiled `'%Y-%m-%d %H:%M'`. -/
def fmtYMDHM : List Tok :=
  [Tok.ty, Tok.lit '-', Tok.tm, Tok.lit '-', Tok.td, Tok.lit ' ',
   Tok.th, Tok.lit ':', Tok.tmin]

/-- Compiled `'%m/%d/%Y'`. -/
def fmtMDY : List Tok := [Tok.tm, Tok.lit '/', Tok.td, Tok.lit '/', Tok.ty]

/-- Compiled `'%Y-%m-%d'`. -/
def fmtYMD : List Tok := [Tok.ty, Tok.lit '-', Tok.tm, Tok.lit '-', Tok.td]

/-- Model of `datetime.strptime(s, '%m/%d/%Y %H:%M')`, the single
format accepted by data_handler.py and ultra_simple_main.py. -/
def parseMDYHM (s : String) : Option PyDateTime := strptimeWith fmtMDYHM s

/-- The format list tried in order by `WebDataHandler.import_pattern_from_csv`. -/
def webFormats : List (List Tok) :=
  [fmtMDYHM, fmtMDYHMS, fmtYMDHMS, fmtYMDHM, fmtMDY, fmtYMD]

/-- The web variant's multi-format parse: first format that succeeds. -/
def webParseDt (s : String) : Option PyDateTime :=
  webFormats.findSome? fun f => strptimeWith f s

/-- Two-digit zero padding, as strftime `%m/%d/%H/%M`. -/
def pad2 (n : ℕ) : String := if n < 10 then "0" ++ toString n else toString n

/-- Four-digit zero padding, as strftime `%Y`. -/
def pad4 (n : ℕ) : String :=
  if n < 10 then "000" ++ toString n
  else if n < 100 then "00" ++ toString n
  else if n < 1000 then "0" ++ toString n
  else toString n

/-- Model of `dt.strftime('%m/%d/%Y %H:%M')`. -/
def formatMDYHM (dt : PyDateTime) : String :=
  pad2 dt.month ++ "/" ++ pad2 dt.day ++ "/" ++ pad4 dt.year ++ " "
    ++ pad2 dt.hour ++ ":" ++ pad2 dt.minute

/-! ## Pattern data model and CSV rows

A stroke point is a `(datetime-string, price)` pair exactly as the
Python code stores it; prices are embedded as rationals (Python float
literals round-trip exactly through the CSV text). A CSV row as seen
through `csv.DictReader`: a field is `none` when its column is absent
from the file (accessing it raises `KeyError`). -/

/-- A stroke point `(datetime_str, price)`. -/
abbrev StrokePoint := String × ℚ

/-- A stroke: ordered list of points. -/
abbrev Stroke := List StrokePoint

/-- One `csv.DictReader` row of a pattern file. -/
structure CsvRow where
  stroke_id : Option ℤ
  datetime : Option String
  open_ : Option ℚ
  high : Option ℚ
  low : Option ℚ
  close : Option ℚ
  volume : Option ℚ
deriving DecidableEq, Repr

/-- Kinds of exception raised inside the import/export bodies (all are
re-raised wrapped in a generic `Exception` by the Python code). -/
inductive ImpError where
  | keyError
  | parseFail
  | typeFail
deriving DecidableEq, Repr

/-! ## DataHandler (data_handler.py): export and import -/

/-- Export of a single point by `DataHandler.export_pattern_to_csv`:
re-parse the stored timestamp string with `'%m/%d/%Y %H:%M'` (raising
if it does not parse), re-format it, and emit a row whose four price
columns all carry the point's price and whose volume is 0. -/
def dhExportPoint (sid : ℕ) (pt : StrokePoint) : Except ImpError CsvRow :=
  match parseMDYHM pt.1 with
  | none => .error .parseFail
  | some dt =>
    .ok ⟨some (sid : ℤ), some (formatMDYHM dt), some pt.2, some pt.2, some pt.2, some pt.2, some 0⟩

/-- Rows for the strokes starting at stroke id `sid` (the enumerate
loop of `export_pattern_to_csv`). -/
def dhExportRows (sid : ℕ) : List Stroke → Except ImpError (List CsvRow)
  | [] => .ok []
  | s :: rest => do
    let rows ← s.mapM (dhExportPoint sid)
    let more ← dhExportRows (sid + 1) rest
    .ok (rows ++ more)

/-- Model of `DataHandler.export_pattern_to_csv`: the list of data
rows written after the header row. -/
def dhExportPattern (strokes : List Stroke) : Except ImpError (List CsvRow) :=
  dhExportRows 0 strokes

/-- The value of `last_stroke_id` during `DataHandler.import_pattern_from_csv`:
`None`, an `int` (modern branch), or a `datetime` (legacy branch). -/
inductive LastId where
  | noneYet
  | fromId (n : ℤ)
  | fromDt (d : PyDateTime)
deriving DecidableEq, Repr

/-- Loop state of `DataHandler.import_pattern_from_csv`. -/
structure DHState where
  strokes : List Stroke
  current : Stroke
  last : LastId
deriving DecidableEq, Repr

/-- One iteration of the row loop in `DataHandler.import_pattern_from_csv`.
With a `stroke_id` column the row's datetime string is stored verbatim
(no parsing); without one, the datetime is parsed with
`'%m/%d/%Y %H:%M'` and a gap `> 30` seconds from the previous row
starts a new stroke. -/
def dhStep (st : DHState) (row : CsvRow) : Except ImpError DHState :=
  match row.stroke_id with
  | some n =>
    match row.datetime, row.close with
    | some ds, some p =>
      let flush := st.last ≠ LastId.noneYet ∧ st.last ≠ LastId.fromId n
      let strokes := if flush then (if st.current ≠ [] then st.strokes ++ [st.current] else st.strokes) else st.strokes
      let current := if flush then [] else st.current
      .ok ⟨strokes, current ++ [(ds, p)], LastId.fromId n⟩
    | _, _ => .error .keyError
  | none =>
    match row.datetime, row.close with
    | some ds, some p =>
      match parseMDYHM ds with
      | none => .error .parseFail
      | some dt =>
        match st.last with
        | LastId.noneYet => .ok ⟨st.strokes, st.current ++ [(ds, p)], LastId.fromDt dt⟩
        | LastId.fromId _ => .error .typeFail
        | LastId.fromDt prev =>
          let flush := toSeconds dt - toSeconds prev > 30
          let strokes := if flush then (if st.current ≠ [] then st.strokes ++ [st.current] else st.strokes) else st.strokes
          let current := if flush then [] else st.current
          .ok ⟨strokes, current ++ [(ds, p)], LastId.fromDt dt⟩
    | _, _ => .error .keyError

/-- After the row loop, the final in-progress stroke is appended if
non-empty. -/
def finalizeStrokes (strokes : List Stroke) (current : Stroke) : List Stroke :=
  if current ≠ [] then strokes ++ [current] else strokes

/-- Model of `DataHandler.import_pattern_from_csv` on the parsed rows. -/
def dhImportPattern (rows : List CsvRow) : Except ImpError (List Stroke) := do
  let st ← rows.foldlM dhStep ⟨[], [], LastId.noneYet⟩
  .ok (finalizeStrokes st.strokes st.current)

/-! ## UltraSimpleDataHandler (ultra_simple_main.py): export and import -/

/-- Loop state of the legacy-only importers (ultra and web variants):
`last_datetime` is `None` or a `datetime`. -/
structure LegacyState where
  strokes : List Stroke
  current : Stroke
  last : Option PyDateTime
deriving DecidableEq, Repr

/-- One iteration of `UltraSimpleDataHandler.import_pattern_from_csv`:
parse the datetime with the single format `'%m/%d/%Y %H:%M'` (raising
on failure) and start a new stroke when the gap from the previous row
exceeds 60 seconds. -/
def ultraStep (st : LegacyState) (row : CsvRow) : Except ImpError LegacyState :=
  match row.datetime, row.close with
  | some ds, some p =>
    match parseMDYHM ds with
    | none => .error .parseFail
    | some dt =>
      match st.last with
      | none => .ok ⟨st.strokes, st.current ++ [(ds, p)], some dt⟩
      | some prev =>
        let flush := toSeconds dt - toSeconds prev > 60
        let strokes := if flush then (if st.current ≠ [] then st.strokes ++ [st.current] else st.strokes) else st.strokes
        let current := if flush then [] else st.current
        .ok ⟨strokes, current ++ [(ds, p)], some dt⟩
  | _, _ => .error .keyError

/-- Model of `UltraSimpleDataHandler.import_pattern_from_csv`. -/
def ultraImportPattern (rows : List CsvRow) : Except ImpError (List Stroke) := do
  let st ← rows.foldlM ultraStep ⟨[], [], none⟩
  .ok (finalizeStrokes st.strokes st.current)

/-- A row written by `UltraSimpleDataHandler.export_pattern_to_csv`:
no stroke_id column, datetime string written verbatim (no re-parse),
all four price columns equal to the price, volume 0. -/
def ultraRowOfPoint (pt : StrokePoint) : CsvRow :=
  ⟨none, some pt.1, some pt.2, some pt.2, some pt.2, some pt.2, some 0⟩

/-- Model of `UltraSimpleDataHandler.export_pattern_to_csv`: data rows
written after the header; never raises and never filters. -/
def ultraExportPattern (strokes : List Stroke) : List CsvRow :=
  strokes.flatMap (List.map ultraRowOfPoint)

/-- Model of `UltraSimpleChartCanvas.export_patterns`: exports only
when a data handler is set and `all_strokes` is non-empty; returns
whether it exported, paired with the rows written (if any). -/
def ultraExportPatterns (hasHandler : Bool) (allStrokes : List Stroke) :
    Bool × Option (List CsvRow) :=
  if hasHandler ∧ allStrokes ≠ [] then (true, some (ultraExportPattern allStrokes))
  else (false, none)

/-! ## WebDataHandler (web_app.py): import -/

/-- One iteration of `WebDataHandler.import_pattern_from_csv`: try the
six formats in order; if none parses, fall back to the current time;
gap threshold 60 seconds. -/
def webStep (now : PyDateTime) (st : LegacyState) (row : CsvRow) : Except ImpError LegacyState :=
  match row.datetime, row.close with
  | some ds, some p =>
    let dt := (webParseDt ds).getD now
    match st.last with
    | none => .ok ⟨st.strokes, st.current ++ [(ds, p)], some dt⟩
    | some prev =>
      let flush := toSeconds dt - toSeconds prev > 60
      let strokes := if flush then (if st.current ≠ [] then st.strokes ++ [st.current] else st.strokes) else st.strokes
      let current := if flush then [] else st.current
      .ok ⟨strokes, current ++ [(ds, p)], some dt⟩
  | _, _ => .error .keyError

/-- Model of `WebDataHandler.import_pattern_from_csv`, with `now` the
wall-clock fallback for unparseable datetimes. -/
def webImportPattern (now : PyDateTime) (rows : List CsvRow) : Except ImpError (List Stroke) := do
  let st ← rows.foldlM (webStep now) ⟨[], [], none⟩
  .ok (finalizeStrokes st.strokes st.current)

/-! ## Coordinate mapping (ultra_simple_main.py / simple_chart_canvas.py)

Pixel and data coordinates are embedded as rationals; the four mapping
functions are literal translations of `time_to_x`, `price_to_y`,
`x_to_time`, `y_to_price`, with the same degenerate-range guards. -/

/-- Chart geometry and data ranges held by the canvas. -/
structure ChartCfg where
  chartWidth : ℚ
  chartHeight : ℚ
  marginLeft : ℚ
  marginRight : ℚ
  marginTop : ℚ
  marginBottom : ℚ
  minPrice : ℚ
  maxPrice : ℚ
  minTime : ℚ
  maxTime : ℚ
deriving DecidableEq, Repr

/-- The geometry constants set in the canvas `__init__` (800x600,
margins 60/20/20/60), with the given data ranges. -/
def initCfg (minP maxP minT maxT : ℚ) : ChartCfg :=
  ⟨800, 600, 60, 20, 20, 60, minP, maxP, minT, maxT⟩

/-- Model of `time_to_x`. -/
def time_to_x (c : ChartCfg) (time : ℚ) : ℚ :=
  if c.maxTime = c.minTime then c.marginLeft
  else c.marginLeft + (time - c.minTime) / (c.maxTime - c.minTime)
    * (c.chartWidth - c.marginLeft - c.marginRight)

/-- Model of `price_to_y`. -/
def price_to_y (c : ChartCfg) (price : ℚ) : ℚ :=
  if c.maxPrice = c.minPrice then c.marginTop
  else c.chartHeight - c.marginBottom - (price - c.minPrice) / (c.maxPrice - c.minPrice)
    * (c.chartHeight - c.marginTop - c.marginBottom)

/-- Model of `x_to_time`. -/
def x_to_time (c : ChartCfg) (x : ℚ) : ℚ :=
  if c.chartWidth - c.marginLeft - c.marginRight = 0 then c.minTime
  else c.minTime + (x - c.marginLeft) / (c.chartWidth - c.marginLeft - c.marginRight)
    * (c.maxTime - c.minTime)

/-- Model of `y_to_price`. -/
def y_to_price (c : ChartCfg) (y : ℚ) : ℚ :=
  if c.chartHeight - c.marginTop - c.marginBottom = 0 then c.minPrice
  else c.minPrice + (c.chartHeight - c.marginBottom - y) / (c.chartHeight - c.marginTop - c.marginBottom)
    * (c.maxPrice - c.minPrice)

/-! ## Stroke recorder (UltraSimpleChartCanvas mouse handlers) -/

/-- One loaded market bar (the fields the canvas handlers read). -/
structure Bar where
  dt : PyDateTime
  close : ℚ
deriving DecidableEq, Repr

instance : Inhabited Bar := ⟨⟨default, 0⟩⟩

/-- Python `int()` on a float: truncation toward zero. -/
def pyInt (q : ℚ) : ℤ := if q < 0 then -⌊-q⌋ else ⌊q⌋

/-- The chart-rectangle hit test used by the mouse handlers. -/
def inChartRect (c : ChartCfg) (x y : ℚ) : Bool :=
  decide (c.marginLeft ≤ x ∧ x ≤ c.chartWidth - c.marginRight ∧
          c.marginTop ≤ y ∧ y ≤ c.chartHeight - c.marginBottom)

/-- Timestamp resolution in `on_mouse_press` / `on_mouse_move`: if
market data is loaded and `0 <= time_val < len(market_data)`, format
the bar at index `int(time_val)`; otherwise use the current wall-clock
time already formatted (`now`). -/
def resolveTimeStr (md : List Bar) (now : String) (timeVal : ℚ) : String :=
  if md ≠ [] ∧ 0 ≤ timeVal ∧ timeVal < (md.length : ℚ) then
    formatMDYHM (md.getD (pyInt timeVal).toNat default).dt
  else now

/-- Drawing state of `UltraSimpleChartCanvas`. -/
structure CanvasState where
  isDrawing : Bool
  drawingEnabled : Bool
  currentStroke : Stroke
  allStrokes : List Stroke
deriving DecidableEq, Repr

/-- The canvas state after `__init__`. -/
def initCanvas : CanvasState := ⟨false, false, [], []⟩

/-- Model of `UltraSimpleChartCanvas.on_mouse_press`. -/
def on_mouse_press (c : ChartCfg) (md : List Bar) (now : String)
    (st : CanvasState) (x y : ℚ) : CanvasState :=
  if ¬ st.drawingEnabled then st
  else if inChartRect c x y then
    { st with isDrawing := true,
              currentStroke := [(resolveTimeStr md now (x_to_time c x), y_to_price c y)] }
  else st

/-- Model of `UltraSimpleChartCanvas.on_mouse_move`. -/
def on_mouse_move (c : ChartCfg) (md : List Bar) (now : String)
    (st : CanvasState) (x y : ℚ) : CanvasState :=
  if ¬ st.drawingEnabled ∨ ¬ st.isDrawing then st
  else if inChartRect c x y then
    { st with currentStroke :=
        st.currentStroke ++ [(resolveTimeStr md now (x_to_time c x), y_to_price c y)] }
  else st

/-- Model of `UltraSimpleChartCanvas.on_mouse_release`: the completed
stroke is kept only when it has more than one point; the current
stroke is cleared either way. -/
def on_mouse_release (st : CanvasState) : CanvasState :=
  if ¬ st.drawingEnabled ∨ ¬ st.isDrawing then st
  else
    { st with isDrawing := false,
              allStrokes := if st.currentStroke.length > 1
                            then st.allStrokes ++ [st.currentStroke]
                            else st.allStrokes,
              currentStroke := [] }

/-- Model of `enable_drawing`. -/
def enable_drawing (st : CanvasState) : CanvasState := { st with drawingEnabled := true }

/-- Model of `disable_drawing`. -/
def disable_drawing (st : CanvasState) : CanvasState := { st with drawingEnabled := false }

/-- Model of `clear_patterns` on the canvas state. -/
def clear_patterns (st : CanvasState) : CanvasState :=
  { st with allStrokes := [], currentStroke := [] }

/-- Pointer / mode events delivered to the canvas; press and move carry
the pixel coordinates and the wall-clock string sampled at the event. -/
inductive CanvasEvent where
  | press (x y : ℚ) (now : String)
  | move (x y : ℚ) (now : String)
  | release
  | enable
  | disable
  | clear
deriving DecidableEq, Repr

/-- Dispatch one event to the corresponding handler. -/
def canvasStep (c : ChartCfg) (md : List Bar) (st : CanvasState) :
    CanvasEvent → CanvasState
  | .press x y now => on_mouse_press c md now st x y
  | .move x y now => on_mouse_move c md now st x y
  | .release => on_mouse_release st
  | .enable => enable_drawing st
  | .disable => disable_drawing st
  | .clear => clear_patterns st

/-- Run a sequence of events from the initial canvas state. -/
def runCanvas (c : ChartCfg) (md : List Bar) (evs : List CanvasEvent) : CanvasState :=
  evs.foldl (canvasStep c md) initCanvas

/-! ## Nearest-time lookup (the scan in `update_drawing_preview`) -/

/-- The linear scan: running pair `(min_diff, time_idx)` with
`min_diff = none` playing `float('inf')`; strict `<` makes the first
minimum win. `i` is the enumeration counter. -/
def nearestGo (dt : ℤ) : ℕ → (Option ℤ × ℕ) → List ℤ → Option ℤ × ℕ
  | _, best, [] => best
  | i, best, t :: rest =>
    let d := |dt - t|
    let best' := match best.1 with
      | none => (some d, i)
      | some m => if d < m then (some d, i) else best
    nearestGo dt (i + 1) best' rest

/-- Model of the nearest-bar scan over the market series timestamps. -/
def nearestTimeIdx (dt : ℤ) (times : List ℤ) : ℕ :=
  (nearestGo dt 0 (none, 0) times).2

/-! ## Specification-side chunking for the legacy decode

`gapChunks thr` splits a resolved row list into strokes, starting a
new stroke exactly when the (signed) time difference to the previous
row exceeds `thr`, and appending the final in-progress stroke at the
end. The legacy importers are proved equal to it. -/

/-- Chunking loop: `tprev` is the previous row's time, `cur` the
in-progress stroke. -/
def gapChunksGo (thr : ℤ) : ℤ → Stroke → List (ℤ × StrokePoint) → List Stroke
  | _, cur, [] => [cur]
  | tprev, cur, (t, p) :: rest =>
    if t - tprev > thr then cur :: gapChunksGo thr t [p] rest
    else gapChunksGo thr t (cur ++ [p]) rest

/-- Split resolved rows into strokes at gaps exceeding `thr`. -/
def gapChunks (thr : ℤ) : List (ℤ × StrokePoint) → List Stroke
  | [] => []
  | (t, p) :: rest => gapChunksGo thr t [p] rest

/-- Row resolution for the ultra importer: the parsed time (in
seconds) and the stored point; defaults are irrelevant under the
theorems' parse hypotheses. -/
def resolveUltra (row : CsvRow) : ℤ × StrokePoint :=
  let ds := row.datetime.getD ""
  (((parseMDYHM ds).map toSeconds).getD 0, (ds, row.close.getD 0))

/-- Row resolution for the web importer: unparseable datetimes resolve
to `now`. -/
def resolveWeb (now : PyDateTime) (row : CsvRow) : ℤ × StrokePoint :=
  let ds := row.datetime.getD ""
  (toSeconds ((webParseDt ds).getD now), (ds, row.close.getD 0))

/-! ## Helper lemmas: stroke recorder invariant -/

/-- Every completed stroke has more than one point. -/
def goodStrokes (st : CanvasState) : Prop := ∀ s ∈ st.allStrokes, 1 < s.length

lemma on_mouse_press_allStrokes (c : ChartCfg) (md : List Bar) (now : String)
    (st : CanvasState) (x y : ℚ) :
    (on_mouse_press c md now st x y).allStrokes = st.allStrokes := by
  unfold on_mouse_press
  split <;> [rfl; skip]
  split <;> rfl

lemma on_mouse_move_allStrokes (c : ChartCfg) (md : List Bar) (now : String)
    (st : CanvasState) (x y : ℚ) :
    (on_mouse_move c md now st x y).allStrokes = st.allStrokes := by
  unfold on_mouse_move
  split <;> [rfl; skip]
  split <;> rfl

lemma canvasStep_good (c : ChartCfg) (md : List Bar) (st : CanvasState)
    (ev : CanvasEvent) (h : goodStrokes st) : goodStrokes (canvasStep c md st ev) := by
  cases ev with
  | press x y now =>
    intro s hs
    rw [canvasStep, on_mouse_press_allStrokes] at hs
    exact h s hs
  | move x y now =>
    intro s hs
    rw [canvasStep, on_mouse_move_allStrokes] at hs
    exact h s hs
  | release =>
    intro s hs
    rw [canvasStep, on_mouse_release] at hs
    split at hs
    · exact h s hs
    · simp only at hs
      split at hs
      · rcases List.mem_append.mp hs with h' | h'
        · exact h s h'
        · rename_i hlen
          rcases List.mem_singleton.mp h' with rfl
          exact hlen
      · exact h s hs
  | enable => exact h
  | disable => exact h
  | clear => intro s hs; simp [canvasStep, clear_patterns] at hs

lemma foldl_canvas_good (c : ChartCfg) (md : List Bar) :
    ∀ (evs : List CanvasEvent) (st : CanvasState), goodStrokes st →
      goodStrokes (evs.foldl (canvasStep c md) st) := by
  intro evs
  induction evs with
  | nil => intro st h; exact h
  | cons ev rest ih =>
    intro st h
    exact ih _ (canvasStep_good c md st ev h)

/-! ## Claim C8 -/

/-- C8: after any sequence of pointer and mode events from the initial
canvas state, no completed stroke has exactly one point; and a
pointer-up while drawing appends the current stroke exactly when its
length exceeds 1, clearing the current stroke in both cases. -/
theorem c8_no_singleton_stroke :
    (∀ (c : ChartCfg) (md : List Bar) (evs : List CanvasEvent),
      ∀ s ∈ (runCanvas c md evs).allStrokes, s.length ≠ 1) ∧
    (∀ st : CanvasState, st.drawingEnabled = true → st.isDrawing = true →
      (on_mouse_release st).allStrokes
        = (if st.currentStroke.length > 1 then st.allStrokes ++ [st.currentStroke]
           else st.allStrokes) ∧
      (on_mouse_release st).currentStroke = []) := by
  constructor
  · intro c md evs s hs
    have hgood : goodStrokes (runCanvas c md evs) :=
      foldl_canvas_good c md evs initCanvas (by intro s hs; simp [initCanvas] at hs)
    have := hgood s hs
    omega
  · intro st he hd
    rw [on_mouse_release]
    rw [he, hd]
    simp

/-- C8 witness: a concrete enable/press/move/release session stores one
two-point stroke, and that stroke's length is not 1. -/
theorem c8_no_singleton_stroke_witness :
    (("t1", (50 : ℚ)) :: [("t2", (50 : ℚ))]).length ≠ 1 := by
  have hmem : [("t1", (50 : ℚ)), ("t2", (50 : ℚ))] ∈
      (runCanvas (initCfg 50 50 0 10) []
        [CanvasEvent.enable, CanvasEvent.press 100 100 "t1",
         CanvasEvent.move 101 101 "t2", CanvasEvent.release]).allStrokes := by
    norm_num [runCanvas, canvasStep, enable_drawing, on_mouse_press, on_mouse_move,
      on_mouse_release, initCanvas, inChartRect, resolveTimeStr, x_to_time, y_to_price, initCfg]
  exact c8_no_singleton_stroke.1 _ _ _ _ hmem

/-! ## Claim C4 -/

/-- C4 counterexample: exporting an empty pattern raises nothing.
`DataHandler.export_pattern_to_csv` succeeds with zero data rows (a
header-only file), and the ultra canvas guard merely returns `False`
instead of raising any error. -/
theorem c4_counterexample :
    dhExportPattern ([] : List Stroke) = Except.ok ([] : List CsvRow) ∧
    ultraExportPatterns true [] = (false, none) :=
  ⟨rfl, rfl⟩

/-- C4 (amended): exporting an empty PatternSet raises no error of any
kind: the DataHandler writer succeeds and writes a header-only file
(zero data rows), the ultra writer writes zero data rows, and
`UltraSimpleChartCanvas.export_patterns` skips the write and returns
`False` when there are no strokes (exporting normally otherwise). -/
theorem c4_empty_export :
    dhExportPattern ([] : List Stroke) = Except.ok ([] : List CsvRow) ∧
    ultraExportPattern [] = [] ∧
    ultraExportPatterns true [] = (false, none) ∧
    ultraExportPatterns false [] = (false, none) ∧
    (∀ strokes : List Stroke, strokes ≠ [] →
      ultraExportPatterns true strokes = (true, some (ultraExportPattern strokes))) := by
  refine ⟨rfl, rfl, rfl, rfl, ?_⟩
  intro strokes h
  simp [ultraExportPatterns, h]

/-- C4 witness: the guard exports a concrete non-empty pattern. -/
theorem c4_empty_export_witness :
    ultraExportPatterns true [[("03/12/2025 10:00", (5 : ℚ))]]
      = (true, some (ultraExportPattern [[("03/12/2025 10:00", (5 : ℚ))]])) :=
  c4_empty_export.2.2.2.2 [[("03/12/2025 10:00", (5 : ℚ))]] (by decide)

/-! ## Claim C7 -/

/-- C7: with the canvas geometry from `__init__` and non-degenerate
price and time ranges, `y_to_price` inverts `price_to_y` and
`x_to_time` inverts `time_to_x` exactly. -/
theorem c7_mapping_roundtrip :
    ∀ (minP maxP minT maxT p i : ℚ), maxP ≠ minP → maxT ≠ minT →
      y_to_price (initCfg minP maxP minT maxT) (price_to_y (initCfg minP maxP minT maxT) p) = p ∧
      x_to_time (initCfg minP maxP minT maxT) (time_to_x (initCfg minP maxP minT maxT) i) = i := by
  intro minP maxP minT maxT p i hP hT
  constructor
  · simp only [price_to_y, y_to_price, initCfg]
    rw [if_neg hP]
    rw [if_neg (show (600 : ℚ) - 20 - 60 ≠ 0 by norm_num)]
    have h : maxP - minP ≠ 0 := sub_ne_zero.mpr hP
    field_simp
    ring
  · simp only [time_to_x, x_to_time, initCfg]
    rw [if_neg hT]
    rw [if_neg (show (800 : ℚ) - 60 - 20 ≠ 0 by norm_num)]
    have h : maxT - minT ≠ 0 := sub_ne_zero.mpr hT
    field_simp
    ring

/-- C7 witness: roundtrip at a concrete configuration and inputs. -/
theorem c7_mapping_roundtrip_witness :
    y_to_price (initCfg 0 100 0 10) (price_to_y (initCfg 0 100 0 10) 7) = 7 ∧
    x_to_time (initCfg 0 100 0 10) (time_to_x (initCfg 0 100 0 10) 3) = 3 :=
  c7_mapping_roundtrip 0 100 0 10 7 3 (by norm_num) (by norm_num)

/-! ## Claim C9 -/

/-- C9: in the degenerate configurations, `price_to_y` returns the top
margin when the price range collapses, `time_to_x` returns the left
margin when the time range collapses, and under the same conditions
`x_to_time` and `y_to_price` return the minimum time and the minimum
price, so no mapping function ever divides by a collapsed range. -/
theorem c9_degenerate_guards :
    ∀ (c : ChartCfg) (p i x y : ℚ),
      (c.maxPrice = c.minPrice → price_to_y c p = c.marginTop) ∧
      (c.maxTime = c.minTime → time_to_x c i = c.marginLeft) ∧
      (c.maxTime = c.minTime → x_to_time c x = c.minTime) ∧
      (c.maxPrice = c.minPrice → y_to_price c y = c.minPrice) := by
  intro c p i x y
  refine ⟨fun h => ?_, fun h => ?_, fun h => ?_, fun h => ?_⟩
  · rw [price_to_y, if_pos h]
  · rw [time_to_x, if_pos h]
  · rw [x_to_time]
    split
    · rfl
    · rw [h]; ring
  · rw [y_to_price]
    split
    · rfl
    · rw [h]; ring

/-- C9 witness: degenerate guards at a concrete configuration. -/
theorem c9_degenerate_guards_witness :
    price_to_y (initCfg 5 5 3 3) 7 = 20 ∧
    time_to_x (initCfg 5 5 3 3) 9 = 60 ∧
    x_to_time (initCfg 5 5 3 3) 400 = 3 ∧
    y_to_price (initCfg 5 5 3 3) 200 = 5 := by
  have h := c9_degenerate_guards (initCfg 5 5 3 3) 7 9 400 200
  exact ⟨h.1 rfl, h.2.1 rfl, h.2.2.1 rfl, h.2.2.2 rfl⟩

/-! ## Claim C3: decode error behavior -/

lemma dhFold_missing_field_error :
    ∀ (rows : List CsvRow) (st : DHState),
      (∃ r ∈ rows, r.datetime = none ∨ r.close = none) →
      ∃ e, rows.foldlM dhStep st = Except.error e := by
  intro rows
  induction rows with
  | nil => intro st h; simp at h
  | cons r rest ih =>
    intro st h
    by_cases hr : r.datetime = none ∨ r.close = none
    · have hstep : dhStep st r = Except.error ImpError.keyError := by
        obtain ⟨sid, dtf, o, hi, lo, cl, vol⟩ := r
        rcases hr with h1 | h1 <;> simp only at h1 <;> subst h1 <;>
          cases sid <;> (try cases dtf) <;> (try cases cl) <;> rfl
      exact ⟨ImpError.keyError, by rw [List.foldlM_cons, hstep]; rfl⟩
    · push_neg at hr
      obtain ⟨r', hmem, hbad⟩ := h
      have hrest : r' ∈ rest := by
        rcases List.mem_cons.mp hmem with rfl | h'
        · rcases hbad with h1 | h1
          · exact absurd h1 hr.1
          · exact absurd h1 hr.2
        · exact h'
      cases hst : dhStep st r with
      | error e => exact ⟨e, by rw [List.foldlM_cons, hst]; rfl⟩
      | ok st' =>
        obtain ⟨e, he⟩ := ih st' ⟨r', hrest, hbad⟩
        exact ⟨e, by rw [List.foldlM_cons, hst]; simpa using he⟩

/-- C3 (amended): the modern-format decode stores datetime values
verbatim without parsing them, so an unparseable datetime such as
`"not-a-date"` does not fail; decode does fail whenever some row is
missing the datetime or close field; the single-format legacy decode
of `DataHandler` fails on an unparseable datetime, while the richer
web-variant legacy decode substitutes the wall-clock fallback and
continues. -/
theorem c3_decode_error_handling :
    (∀ rows : List CsvRow, (∃ r ∈ rows, r.datetime = none ∨ r.close = none) →
      ∃ e, dhImportPattern rows = Except.error e) ∧
    dhImportPattern [⟨some 0, some "not-a-date", none, none, none, some 5, none⟩]
      = Except.ok [[("not-a-date", 5)]] ∧
    dhImportPattern [⟨none, some "not-a-date", none, none, none, some 5, none⟩]
      = Except.error ImpError.parseFail ∧
    webImportPattern ⟨2025, 6, 1, 12, 0, 0⟩
      [⟨none, some "not-a-date", none, none, none, some 5, none⟩,
       ⟨none, some "03/12/2025 10:00", none, none, none, some 6, none⟩]
      = Except.ok [[("not-a-date", 5), ("03/12/2025 10:00", 6)]] := by
  refine ⟨?_, rfl, rfl, rfl⟩
  intro rows h
  obtain ⟨e, he⟩ := dhFold_missing_field_error rows ⟨[], [], LastId.noneYet⟩ h
  exact ⟨e, by rw [dhImportPattern, he]; rfl⟩

/-- C3 witness: a row with the close field missing makes the import
fail. -/
theorem c3_decode_error_handling_witness :
    ∃ e, dhImportPattern [⟨some 0, some "03/12/2025 10:00", none, none, none, none, none⟩]
      = Except.error e :=
  c3_decode_error_handling.1 _
    ⟨⟨some 0, some "03/12/2025 10:00", none, none, none, none, none⟩,
      List.Mem.head _, Or.inr rfl⟩

/-- C3 counterexample: `datetime="not-a-date"` parses under no
accepted format, yet the modern-format decode (stroke_id present)
succeeds, storing the string verbatim, instead of failing. -/
theorem c3_counterexample :
    parseMDYHM "not-a-date" = none ∧
    webParseDt "not-a-date" = none ∧
    dhImportPattern [⟨some 0, some "not-a-date", none, none, none, some 5, none⟩]
      = Except.ok [[("not-a-date", 5)]] :=
  ⟨rfl, rfl, rfl⟩

/-! ## Claim C5: point resolution in the mouse handlers -/

/-- C5 (amended): while drawing is enabled and the event is inside the
chart rectangle, the recorded point's timestamp is the timestamp of the
bar at index `int(timeIndex)` (truncation toward zero) formatted as
MM/DD/YYYY HH:MM when a series is loaded and the time value lies in
`[0, len)`; otherwise it is the sampled wall-clock string; the price is
`y_to_price` of the pixel y; `on_mouse_move` appends the analogous
point while a stroke is being drawn. -/
theorem c5_point_resolution :
    ∀ (c : ChartCfg) (md : List Bar) (now : String) (st : CanvasState) (x y : ℚ),
      st.drawingEnabled = true →
      inChartRect c x y = true →
      ((md ≠ [] ∧ 0 ≤ x_to_time c x ∧ x_to_time c x < (md.length : ℚ)) →
        (on_mouse_press c md now st x y).currentStroke
          = [(formatMDYHM (md.getD (pyInt (x_to_time c x)).toNat default).dt, y_to_price c y)]) ∧
      (¬ (md ≠ [] ∧ 0 ≤ x_to_time c x ∧ x_to_time c x < (md.length : ℚ)) →
        (on_mouse_press c md now st x y).currentStroke = [(now, y_to_price c y)]) ∧
      (st.isDrawing = true →
        (on_mouse_move c md now st x y).currentStroke
          = st.currentStroke
            ++ [(resolveTimeStr md now (x_to_time c x), y_to_price c y)]) := by
  intro c md now st x y he hin
  have hpress : (on_mouse_press c md now st x y).currentStroke
      = [(resolveTimeStr md now (x_to_time c x), y_to_price c y)] := by
    rw [on_mouse_press, if_neg (by rw [he]; exact fun h => h rfl), if_pos hin]
  refine ⟨fun hg => ?_, fun hg => ?_, fun hd => ?_⟩
  · rw [hpress, resolveTimeStr, if_pos hg]
  · rw [hpress, resolveTimeStr, if_neg hg]
  · rw [on_mouse_move, if_neg (by rw [he, hd]; rintro (h | h) <;> exact h rfl), if_pos hin]

/-- The three-bar series used for the C5 concrete input. -/
def c5Bars : List Bar :=
  [⟨⟨2025, 3, 12, 10, 0, 0⟩, 1⟩, ⟨⟨2025, 3, 12, 10, 1, 0⟩, 2⟩, ⟨⟨2025, 3, 12, 10, 2, 0⟩, 3⟩]

/-- C5 counterexample: with the init geometry, ranges `[0,100]` and
`[0,2]`, a press at pixel x = 600 has time value 1.5; `round` gives
index 2, but the recorded timestamp is that of bar 1 (the truncated
index), not bar 2. -/
theorem c5_counterexample :
    2 * x_to_time (initCfg 0 100 0 2) 600 = 3 ∧
    round (x_to_time (initCfg 0 100 0 2) 600) = 2 ∧
    pyInt (x_to_time (initCfg 0 100 0 2) 600) = 1 ∧
    (on_mouse_press (initCfg 0 100 0 2) c5Bars "NOW"
        { initCanvas with drawingEnabled := true } 600 300).currentStroke.map Prod.fst
      = ["03/12/2025 10:01"] ∧
    formatMDYHM (c5Bars.getD 2 default).dt = "03/12/2025 10:02" ∧
    ("03/12/2025 10:01" : String) ≠ "03/12/2025 10:02" := by
  have hx : x_to_time (initCfg 0 100 0 2) 600 = 3 / 2 := by
    norm_num [x_to_time, initCfg]
  have hpy : pyInt (x_to_time (initCfg 0 100 0 2) 600) = 1 := by
    rw [hx, pyInt, if_neg (by norm_num)]
    norm_num [Int.floor_eq_iff]
  refine ⟨by rw [hx]; norm_num, ?_, hpy, ?_, by decide, by decide⟩
  · rw [hx, round_eq]
    norm_num [Int.floor_eq_iff]
  · have h := (c5_point_resolution (initCfg 0 100 0 2) c5Bars "NOW"
      { initCanvas with drawingEnabled := true } 600 300 rfl (by norm_num [inChartRect, initCfg])).1
    rw [h ⟨by decide, by rw [hx]; norm_num, by rw [hx]; norm_num [c5Bars]⟩, hpy]
    decide

/-- C5 witness: the fallback branch at a concrete input with no series
loaded records the sampled wall-clock string. -/
theorem c5_point_resolution_witness :
    (on_mouse_press (initCfg 0 100 0 2) [] "04/01/2025 09:00"
        { initCanvas with drawingEnabled := true } 600 300).currentStroke
      = [("04/01/2025 09:00", y_to_price (initCfg 0 100 0 2) 300)] := by
  have h := (c5_point_resolution (initCfg 0 100 0 2) [] "04/01/2025 09:00"
    { initCanvas with drawingEnabled := true } 600 300 rfl
    (by norm_num [inChartRect, initCfg])).2.1
  exact h (by simp)

/-! ## Helper lemmas: legacy decode equals gap chunking -/

/-- Row loop followed by the final-stroke append, for the legacy-only
importers. -/
def legacyRun (step : LegacyState → CsvRow → Except ImpError LegacyState)
    (st : LegacyState) (rows : List CsvRow) : Except ImpError (List Stroke) := do
  let st' ← rows.foldlM step st
  Except.ok (finalizeStrokes st'.strokes st'.current)

lemma ultraImport_eq_legacyRun (rows : List CsvRow) :
    ultraImportPattern rows = legacyRun ultraStep ⟨[], [], none⟩ rows := rfl

lemma webImport_eq_legacyRun (now : PyDateTime) (rows : List CsvRow) :
    webImportPattern now rows = legacyRun (webStep now) ⟨[], [], none⟩ rows := rfl

lemma legacyRun_cons (step : LegacyState → CsvRow → Except ImpError LegacyState)
    (st : LegacyState) (r : CsvRow) (rest : List CsvRow) (st' : LegacyState)
    (h : step st r = Except.ok st') :
    legacyRun step st (r :: rest) = legacyRun step st' rest := by
  simp only [legacyRun, List.foldlM_cons, h]
  rfl

lemma legacyRun_nil (step : LegacyState → CsvRow → Except ImpError LegacyState)
    (st : LegacyState) :
    legacyRun step st [] = Except.ok (finalizeStrokes st.strokes st.current) := rfl

lemma gapChunksGo_nil (thr tprev : ℤ) (cur : Stroke) :
    gapChunksGo thr tprev cur [] = [cur] := rfl

lemma gapChunksGo_cons (thr tprev : ℤ) (cur : Stroke) (t : ℤ) (p : StrokePoint)
    (rest : List (ℤ × StrokePoint)) :
    gapChunksGo thr tprev cur ((t, p) :: rest)
      = if t - tprev > thr then cur :: gapChunksGo thr t [p] rest
        else gapChunksGo thr t (cur ++ [p]) rest := rfl

lemma gapChunks_cons (thr t : ℤ) (p : StrokePoint) (rest : List (ℤ × StrokePoint)) :
    gapChunks thr ((t, p) :: rest) = gapChunksGo thr t [p] rest := rfl

lemma gapChunks_cons' (thr : ℤ) (x : ℤ × StrokePoint) (rest : List (ℤ × StrokePoint)) :
    gapChunks thr (x :: rest) = gapChunksGo thr x.1 [x.2] rest := by
  obtain ⟨t, p⟩ := x
  rfl

lemma ultraGo :
    ∀ (rows : List CsvRow) (S : List Stroke) (cur : Stroke) (prev : PyDateTime),
      (∀ r ∈ rows, r.datetime.isSome ∧ r.close.isSome ∧
        (parseMDYHM (r.datetime.getD "")).isSome) →
      cur ≠ [] →
      legacyRun ultraStep ⟨S, cur, some prev⟩ rows
        = Except.ok (S ++ gapChunksGo 60 (toSeconds prev) cur (rows.map resolveUltra)) := by
  intro rows
  induction rows with
  | nil =>
    intro S cur prev _ hcur
    rw [legacyRun_nil, List.map_nil, gapChunksGo_nil]
    simp [finalizeStrokes, hcur]
  | cons r rest ih =>
    intro S cur prev hall hcur
    obtain ⟨hd, hc, hp⟩ := hall r (List.mem_cons_self r rest)
    obtain ⟨ds, hds⟩ := Option.isSome_iff_exists.mp hd
    obtain ⟨p, hpc⟩ := Option.isSome_iff_exists.mp hc
    have hp' : (parseMDYHM ds).isSome := by rw [hds] at hp; simpa using hp
    obtain ⟨dt, hdt⟩ := Option.isSome_iff_exists.mp hp'
    have hres : resolveUltra r = (toSeconds dt, (ds, p)) := by
      simp [resolveUltra, hds, hpc, hdt]
    have htail := fun r' h' => hall r' (List.mem_cons_of_mem r h')
    rw [List.map_cons, hres, gapChunksGo_cons]
    by_cases hgap : toSeconds dt - toSeconds prev > 60
    · have hstep : ultraStep ⟨S, cur, some prev⟩ r
          = Except.ok ⟨S ++ [cur], [(ds, p)], some dt⟩ := by
        simp [ultraStep, hds, hpc, hdt, hgap, hcur]
      rw [legacyRun_cons _ _ _ _ _ hstep,
        ih (S ++ [cur]) [(ds, p)] dt htail (by simp), if_pos hgap]
      simp
    · have hstep : ultraStep ⟨S, cur, some prev⟩ r
          = Except.ok ⟨S, cur ++ [(ds, p)], some dt⟩ := by
        simp [ultraStep, hds, hpc, hdt, hgap]
      rw [legacyRun_cons _ _ _ _ _ hstep,
        ih S (cur ++ [(ds, p)]) dt htail (by simp), if_neg hgap]

lemma ultraImport_eq_gapChunks (rows : List CsvRow)
    (hall : ∀ r ∈ rows, r.datetime.isSome ∧ r.close.isSome ∧
      (parseMDYHM (r.datetime.getD "")).isSome) :
    ultraImportPattern rows = Except.ok (gapChunks 60 (rows.map resolveUltra)) := by
  cases rows with
  | nil => rfl
  | cons r rest =>
    obtain ⟨hd, hc, hp⟩ := hall r (List.mem_cons_self r rest)
    obtain ⟨ds, hds⟩ := Option.isSome_iff_exists.mp hd
    obtain ⟨p, hpc⟩ := Option.isSome_iff_exists.mp hc
    have hp' : (parseMDYHM ds).isSome := by rw [hds] at hp; simpa using hp
    obtain ⟨dt, hdt⟩ := Option.isSome_iff_exists.mp hp'
    have hres : resolveUltra r = (toSeconds dt, (ds, p)) := by
      simp [resolveUltra, hds, hpc, hdt]
    have hstep : ultraStep ⟨[], [], none⟩ r = Except.ok ⟨[], [(ds, p)], some dt⟩ := by
      simp [ultraStep, hds, hpc, hdt]
    rw [ultraImport_eq_legacyRun, legacyRun_cons _ _ _ _ _ hstep,
      ultraGo rest [] [(ds, p)] dt (fun r' h' => hall r' (List.mem_cons_of_mem r h'))
        (by simp),
      List.map_cons, hres, gapChunks_cons]
    simp

lemma webGo (now : PyDateTime) :
    ∀ (rows : List CsvRow) (S : List Stroke) (cur : Stroke) (prev : PyDateTime),
      (∀ r ∈ rows, r.datetime.isSome ∧ r.close.isSome) →
      cur ≠ [] →
      legacyRun (webStep now) ⟨S, cur, some prev⟩ rows
        = Except.ok (S ++ gapChunksGo 60 (toSeconds prev) cur (rows.map (resolveWeb now))) := by
  intro rows
  induction rows with
  | nil =>
    intro S cur prev _ hcur
    rw [legacyRun_nil, List.map_nil, gapChunksGo_nil]
    simp [finalizeStrokes, hcur]
  | cons r rest ih =>
    intro S cur prev hall hcur
    obtain ⟨hd, hc⟩ := hall r (List.mem_cons_self r rest)
    obtain ⟨ds, hds⟩ := Option.isSome_iff_exists.mp hd
    obtain ⟨p, hpc⟩ := Option.isSome_iff_exists.mp hc
    have hres : resolveWeb now r = (toSeconds ((webParseDt ds).getD now), (ds, p)) := by
      simp [resolveWeb, hds, hpc]
    have htail := fun r' h' => hall r' (List.mem_cons_of_mem r h')
    rw [List.map_cons, hres, gapChunksGo_cons]
    by_cases hgap : toSeconds ((webParseDt ds).getD now) - toSeconds prev > 60
    · have hstep : webStep now ⟨S, cur, some prev⟩ r
          = Except.ok ⟨S ++ [cur], [(ds, p)], some ((webParseDt ds).getD now)⟩ := by
        simp [webStep, hds, hpc, hgap, hcur]
      rw [legacyRun_cons _ _ _ _ _ hstep,
        ih (S ++ [cur]) [(ds, p)] _ htail (by simp), if_pos hgap]
      simp
    · have hstep : webStep now ⟨S, cur, some prev⟩ r
          = Except.ok ⟨S, cur ++ [(ds, p)], some ((webParseDt ds).getD now)⟩ := by
        simp [webStep, hds, hpc, hgap]
      rw [legacyRun_cons _ _ _ _ _ hstep,
        ih S (cur ++ [(ds, p)]) _ htail (by simp), if_neg hgap]

lemma webImport_eq_gapChunks (now : PyDateTime) (rows : List CsvRow)
    (hall : ∀ r ∈ rows, r.datetime.isSome ∧ r.close.isSome) :
    webImportPattern now rows = Except.ok (gapChunks 60 (rows.map (resolveWeb now))) := by
  cases rows with
  | nil => rfl
  | cons r rest =>
    obtain ⟨hd, hc⟩ := hall r (List.mem_cons_self r rest)
    obtain ⟨ds, hds⟩ := Option.isSome_iff_exists.mp hd
    obtain ⟨p, hpc⟩ := Option.isSome_iff_exists.mp hc
    have hres : resolveWeb now r = (toSeconds ((webParseDt ds).getD now), (ds, p)) := by
      simp [resolveWeb, hds, hpc]
    have hstep : webStep now ⟨[], [], none⟩ r
        = Except.ok ⟨[], [(ds, p)], some ((webParseDt ds).getD now)⟩ := by
      simp [webStep, hds, hpc]
    rw [webImport_eq_legacyRun, legacyRun_cons _ _ _ _ _ hstep,
      webGo now rest [] [(ds, p)] _ (fun r' h' => hall r' (List.mem_cons_of_mem r h'))
        (by simp),
      List.map_cons, hres, gapChunks_cons]
    simp

lemma gapChunksGo_single (thr : ℤ) :
    ∀ (prs : List (ℤ × StrokePoint)) (tprev : ℤ) (cur : Stroke),
      List.Chain (fun a b => b - a ≤ thr) tprev (prs.map Prod.fst) →
      gapChunksGo thr tprev cur prs = [cur ++ prs.map Prod.snd] := by
  intro prs
  induction prs with
  | nil => intro tprev cur _; simp [gapChunksGo_nil]
  | cons tp rest ih =>
    intro tprev cur hch
    obtain ⟨t, p⟩ := tp
    rw [List.map_cons] at hch
    obtain ⟨h1, h2⟩ := List.chain_cons.mp hch
    rw [gapChunksGo_cons, if_neg (by omega), ih t (cur ++ [p]) h2]
    simp

/-! ## Claim C2 -/

/-- C2: legacy-format decode (no stroke_id column) equals gap chunking
with threshold 60 seconds for both the reduced (ultra) and richer
(web) variants: a new stroke starts exactly when the signed gap from
the previous row's parsed timestamp exceeds 60 seconds and the final
in-progress stroke is appended at the end of the row stream (that is
what `gapChunks` does); in particular the rows at 10:00, 10:00:30 and
10:05 decode to exactly two strokes of sizes 2 and 1. -/
theorem c2_legacy_gap_split :
    (∀ rows : List CsvRow,
      (∀ r ∈ rows, r.datetime.isSome ∧ r.close.isSome ∧
        (parseMDYHM (r.datetime.getD "")).isSome) →
      ultraImportPattern rows = Except.ok (gapChunks 60 (rows.map resolveUltra))) ∧
    (∀ (now : PyDateTime) (rows : List CsvRow),
      (∀ r ∈ rows, r.datetime.isSome ∧ r.close.isSome) →
      webImportPattern now rows = Except.ok (gapChunks 60 (rows.map (resolveWeb now)))) ∧
    webImportPattern ⟨2025, 1, 1, 0, 0, 0⟩
      [⟨none, some "03/12/2025 10:00", none, none, none, some 100, none⟩,
       ⟨none, some "03/12/2025 10:00:30", none, none, none, some 101, none⟩,
       ⟨none, some "03/12/2025 10:05", none, none, none, some 102, none⟩]
      = Except.ok [[("03/12/2025 10:00", 100), ("03/12/2025 10:00:30", 101)],
                   [("03/12/2025 10:05", 102)]] ∧
    ([[("03/12/2025 10:00", (100 : ℚ)), ("03/12/2025 10:00:30", 101)],
      [("03/12/2025 10:05", (102 : ℚ))]].map List.length) = [2, 1] :=
  ⟨fun rows h => ultraImport_eq_gapChunks rows h,
   fun now rows h => webImport_eq_gapChunks now rows h,
   rfl, rfl⟩

/-- C2 witness: the gap-chunking characterization applied to the
concrete three-row file. -/
theorem c2_legacy_gap_split_witness :
    webImportPattern ⟨2025, 1, 1, 0, 0, 0⟩
      [⟨none, some "03/12/2025 10:00", none, none, none, some 100, none⟩,
       ⟨none, some "03/12/2025 10:00:30", none, none, none, some 101, none⟩,
       ⟨none, some "03/12/2025 10:05", none, none, none, some 102, none⟩]
      = Except.ok (gapChunks 60
          ([⟨none, some "03/12/2025 10:00", none, none, none, some 100, none⟩,
            ⟨none, some "03/12/2025 10:00:30", none, none, none, some 101, none⟩,
            ⟨none, some "03/12/2025 10:05", none, none, none, some 102, none⟩].map
              (resolveWeb ⟨2025, 1, 1, 0, 0, 0⟩))) :=
  c2_legacy_gap_split.2.1 ⟨2025, 1, 1, 0, 0, 0⟩ _ (by decide)

/-! ## Claim C10 -/

/-- C10: the legacy stroke-break test uses the signed time difference,
so only forward gaps above the threshold split strokes: any row
sequence whose parsed timestamps are non-increasing decodes to a
single stroke holding every row, in both the ultra (threshold 60,
single format) and web (threshold 60, multi-format with fallback)
variants. -/
theorem c10_nonincreasing_single_stroke :
    (∀ rows : List CsvRow, rows ≠ [] →
      (∀ r ∈ rows, r.datetime.isSome ∧ r.close.isSome ∧
        (parseMDYHM (r.datetime.getD "")).isSome) →
      List.Chain' (fun a b => b ≤ a) (rows.map fun r => (resolveUltra r).1) →
      ultraImportPattern rows = Except.ok [rows.map fun r => (resolveUltra r).2]) ∧
    (∀ (now : PyDateTime) (rows : List CsvRow), rows ≠ [] →
      (∀ r ∈ rows, r.datetime.isSome ∧ r.close.isSome) →
      List.Chain' (fun a b => b ≤ a) (rows.map fun r => (resolveWeb now r).1) →
      webImportPattern now rows = Except.ok [rows.map fun r => (resolveWeb now r).2]) := by
  constructor
  · intro rows hne hall hchain
    rw [ultraImport_eq_gapChunks rows hall]
    cases rows with
    | nil => exact absurd rfl hne
    | cons r rest =>
      rw [List.map_cons, gapChunks_cons']
      have hch : List.Chain (fun a b => b - a ≤ 60) (resolveUltra r).1
          ((rest.map resolveUltra).map Prod.fst) := by
        have := hchain
        rw [List.map_cons] at this
        rw [List.map_map]
        exact List.Chain.imp (fun a b h => by omega) this
      rw [gapChunksGo_single 60 (rest.map resolveUltra) (resolveUltra r).1
        [(resolveUltra r).2] hch]
      simp [List.map_map]
  · intro now rows hne hall hchain
    rw [webImport_eq_gapChunks now rows hall]
    cases rows with
    | nil => exact absurd rfl hne
    | cons r rest =>
      rw [List.map_cons, gapChunks_cons']
      have hch : List.Chain (fun a b => b - a ≤ 60) (resolveWeb now r).1
          ((rest.map (resolveWeb now)).map Prod.fst) := by
        have := hchain
        rw [List.map_cons] at this
        rw [List.map_map]
        exact List.Chain.imp (fun a b h => by omega) this
      rw [gapChunksGo_single 60 (rest.map (resolveWeb now)) (resolveWeb now r).1
        [(resolveWeb now r).2] hch]
      simp [List.map_map]

/-- C10 witness: two rows whose parsed timestamps strictly decrease
decode to a single two-point stroke. -/
theorem c10_nonincreasing_single_stroke_witness :
    ultraImportPattern
      [⟨none, some "03/12/2025 10:05", none, none, none, some 1, none⟩,
       ⟨none, some "03/12/2025 10:00", none, none, none, some 2, none⟩]
      = Except.ok [[⟨none, some "03/12/2025 10:05", none, none, none, some 1, none⟩,
          ⟨none, some "03/12/2025 10:00", none, none, none, some 2, none⟩].map
            fun r => (resolveUltra r).2] :=
  c10_nonincreasing_single_stroke.1 _ (by decide) (by decide) (by
    simp only [List.map_cons, List.map_nil, List.chain'_cons, List.chain'_singleton, and_true]
    decide)

/-! ## Claim C6: nearest-time lookup -/

lemma nearestGo_spec (dt : ℤ) :
    ∀ (ts : List ℤ) (i : ℕ) (m : ℤ) (k : ℕ),
      ∃ m' k', nearestGo dt i (some m, k) ts = (some m', k') ∧
        m' ≤ m ∧
        (∀ j < ts.length, m' ≤ |dt - ts.getD j 0|) ∧
        ((k' = k ∧ m' = m) ∨
          (∃ j < ts.length, k' = i + j ∧ m' = |dt - ts.getD j 0| ∧ m' < m ∧
            ∀ l < j, m' < |dt - ts.getD l 0|)) := by
  intro ts
  induction ts with
  | nil =>
    intro i m k
    exact ⟨m, k, rfl, le_refl m, fun j hj => absurd hj (by simp), Or.inl ⟨rfl, rfl⟩⟩
  | cons t rest ih =>
    intro i m k
    by_cases hlt : |dt - t| < m
    · obtain ⟨m', k', heq, hm', hall, hdisj⟩ := ih (i + 1) |dt - t| i
      refine ⟨m', k', ?_, by omega, ?_, ?_⟩
      · rw [nearestGo]
        simp only [if_pos hlt]
        exact heq
      · intro j hj
        cases j with
        | zero => simpa using hm'
        | succ j' =>
          rw [List.getD_cons_succ]
          exact hall j' (by simpa using hj)
      · rcases hdisj with ⟨hk', hm's⟩ | ⟨j, hj, hk', hm's, hlt', hstrict⟩
        · refine Or.inr ⟨0, by simp, by omega, by simpa using hm's, by omega, by omega⟩
        · refine Or.inr ⟨j + 1, by simpa using hj, by omega, ?_, by omega, ?_⟩
          · rw [List.getD_cons_succ]; exact hm's
          · intro l hl
            cases l with
            | zero => simpa using lt_of_lt_of_le hlt' (le_refl _)
            | succ l' =>
              rw [List.getD_cons_succ]
              exact hstrict l' (by omega)
    · obtain ⟨m', k', heq, hm', hall, hdisj⟩ := ih (i + 1) m k
      refine ⟨m', k', ?_, hm', ?_, ?_⟩
      · rw [nearestGo]
        simp only [if_neg hlt]
        exact heq
      · intro j hj
        cases j with
        | zero => simp only [List.getD_cons_zero]; omega
        | succ j' =>
          rw [List.getD_cons_succ]
          exact hall j' (by simpa using hj)
      · rcases hdisj with hleft | ⟨j, hj, hk', hm's, hlt', hstrict⟩
        · exact Or.inl hleft
        · refine Or.inr ⟨j + 1, by simpa using hj, by omega, ?_, hlt', ?_⟩
          · rw [List.getD_cons_succ]; exact hm's
          · intro l hl
            cases l with
            | zero => simp only [List.getD_cons_zero]; omega
            | succ l' =>
              rw [List.getD_cons_succ]
              exact hstrict l' (by omega)

/-- C6: on a non-empty series the scan returns an in-range index whose
time distance to the query is minimal, and among equally distant
indices it returns the smallest (first match wins); in particular a
query halfway between two bars 60 seconds apart resolves to the
earlier bar. -/
theorem c6_nearest_index_earliest :
    (∀ (dt : ℤ) (times : List ℤ), times ≠ [] →
      nearestTimeIdx dt times < times.length ∧
      (∀ j < times.length,
        |dt - times.getD (nearestTimeIdx dt times) 0| ≤ |dt - times.getD j 0|) ∧
      (∀ j < times.length,
        |dt - times.getD j 0| = |dt - times.getD (nearestTimeIdx dt times) 0| →
          nearestTimeIdx dt times ≤ j)) ∧
    (∀ t0 : ℤ, nearestTimeIdx (t0 + 30) [t0, t0 + 60] = 0) := by
  constructor
  · intro dt times hne
    cases times with
    | nil => exact absurd rfl hne
    | cons t rest =>
      have hstep : nearestGo dt 0 (none, 0) (t :: rest)
          = nearestGo dt 1 (some |dt - t|, 0) rest := by
        rw [nearestGo]
      obtain ⟨m', k', heq, hm', hall, hdisj⟩ := nearestGo_spec dt rest 1 |dt - t| 0
      have hidx : nearestTimeIdx dt (t :: rest) = k' := by
        rw [nearestTimeIdx, hstep, heq]
      have hkval : m' = |dt - (t :: rest).getD k' 0| := by
        rcases hdisj with ⟨hk', hm's⟩ | ⟨j, hj, hk', hm's, _, _⟩
        · rw [hk', hm's]; simp
        · rw [hk', Nat.add_comm 1 j, List.getD_cons_succ]
          exact hm's
      refine ⟨?_, ?_, ?_⟩
      · rw [hidx]
        rcases hdisj with ⟨hk', _⟩ | ⟨j, hj, hk', _, _, _⟩
        · simp [hk']
        · simp only [List.length_cons]
          omega
      · intro j hj
        rw [hidx, ← hkval]
        cases j with
        | zero => simpa using hm'
        | succ j' =>
          rw [List.getD_cons_succ]
          exact hall j' (by simpa using hj)
      · intro j hj htie
        rw [hidx] at htie ⊢
        rw [← hkval] at htie
        rcases hdisj with ⟨hk', _⟩ | ⟨j0, hj0, hk', hm's, hlt', hstrict⟩
        · omega
        · cases j with
          | zero =>
            exfalso
            simp only [List.getD_cons_zero] at htie
            omega
          | succ j' =>
            rw [List.getD_cons_succ] at htie
            have : ¬ j' < j0 := fun hcon => by
              have := hstrict j' hcon
              omega
            omega
  · intro t0
    have h1 : |t0 + 30 - t0| = 30 := by
      have : t0 + 30 - t0 = 30 := by ring
      rw [this]; decide
    have h2 : |t0 + 30 - (t0 + 60)| = 30 := by
      have : t0 + 30 - (t0 + 60) = -30 := by ring
      rw [this]; decide
    rw [nearestTimeIdx, nearestGo]
    simp only []
    rw [nearestGo]
    simp only [h1, h2, lt_irrefl, if_neg (lt_irrefl 30)]
    rw [nearestGo]
    simp

/-- C6 witness: the tie at a concrete two-bar series resolves to
index 0, which is in range and optimal. -/
theorem c6_nearest_index_earliest_witness :
    nearestTimeIdx 30 [0, 60] < 2 ∧ nearestTimeIdx 30 [0, 60] = 0 :=
  ⟨(c6_nearest_index_earliest.1 30 [0, 60] (by decide)).1,
   c6_nearest_index_earliest.2 0⟩

/-! ## Helper lemmas: modern round trip (export then import)

The export re-normalizes each stored datetime string through
`strptime`/`strftime`; `canonStr` is that re-normalization. -/

/-- The canonical re-formatting of a timestamp string performed by
`export_pattern_to_csv` (identity when the string does not parse,
which export rejects anyway). -/
def canonStr (s : String) : String := ((parseMDYHM s).map formatMDYHM).getD s

/-- A stroke point after the export re-normalization of its
timestamp. -/
def canonPt (pt : StrokePoint) : StrokePoint := (canonStr pt.1, pt.2)

/-- The row exported for point `pt` of stroke `sid`. -/
def dhRowOf (sid : ℕ) (pt : StrokePoint) : CsvRow :=
  ⟨some (sid : ℤ), some (canonStr pt.1), some pt.2, some pt.2, some pt.2, some pt.2, some 0⟩

/-- Closed form of the export output: rows of each stroke in order,
stroke ids counting up from `sid`. -/
def dhRowsOf : ℕ → List Stroke → List CsvRow
  | _, [] => []
  | sid, s :: rest => s.map (dhRowOf sid) ++ dhRowsOf (sid + 1) rest

/-- The import loop started from an arbitrary state. -/
def dhImportFrom (st : DHState) (rows : List CsvRow) : Except ImpError (List Stroke) := do
  let st' ← rows.foldlM dhStep st
  Except.ok (finalizeStrokes st'.strokes st'.current)

lemma dhImport_eq_from (rows : List CsvRow) :
    dhImportPattern rows = dhImportFrom ⟨[], [], LastId.noneYet⟩ rows := rfl

lemma dhRowsOf_cons (sid : ℕ) (s : Stroke) (rest : List Stroke) :
    dhRowsOf sid (s :: rest) = s.map (dhRowOf sid) ++ dhRowsOf (sid + 1) rest := rfl

lemma dhExportPoint_eq (sid : ℕ) (pt : StrokePoint) (h : (parseMDYHM pt.1).isSome) :
    dhExportPoint sid pt = Except.ok (dhRowOf sid pt) := by
  obtain ⟨dt, hdt⟩ := Option.isSome_iff_exists.mp h
  simp [dhExportPoint, hdt, dhRowOf, canonStr]

lemma dhExportStroke_eq (sid : ℕ) (s : Stroke)
    (h : ∀ pt ∈ s, (parseMDYHM pt.1).isSome) :
    s.mapM (dhExportPoint sid) = Except.ok (s.map (dhRowOf sid)) := by
  induction s with
  | nil => rfl
  | cons pt ps ih =>
    rw [List.mapM_cons, dhExportPoint_eq sid pt (h pt (List.mem_cons_self pt ps)),
      ih (fun q hq => h q (List.mem_cons_of_mem pt hq))]
    rfl

lemma dhExportRows_eq :
    ∀ (ss : List Stroke) (sid : ℕ),
      (∀ s ∈ ss, ∀ pt ∈ s, (parseMDYHM pt.1).isSome) →
      dhExportRows sid ss = Except.ok (dhRowsOf sid ss) := by
  intro ss
  induction ss with
  | nil => intro sid _; rfl
  | cons s rest ih =>
    intro sid h
    rw [dhExportRows, dhExportStroke_eq sid s (h s (List.mem_cons_self s rest)),
      ih (sid + 1) (fun s' hs' => h s' (List.mem_cons_of_mem s hs'))]
    rfl

lemma dhStep_rowOf_cont (sid : ℕ) (pt : StrokePoint) (S : List Stroke) (cur : Stroke) :
    dhStep ⟨S, cur, LastId.fromId (sid : ℤ)⟩ (dhRowOf sid pt)
      = Except.ok ⟨S, cur ++ [canonPt pt], LastId.fromId (sid : ℤ)⟩ := by
  simp [dhStep, dhRowOf, canonPt]

lemma dhStep_rowOf_first (sid : ℕ) (pt : StrokePoint) (S : List Stroke) (cur : Stroke) :
    dhStep ⟨S, cur, LastId.noneYet⟩ (dhRowOf sid pt)
      = Except.ok ⟨S, cur ++ [canonPt pt], LastId.fromId (sid : ℤ)⟩ := by
  simp [dhStep, dhRowOf, canonPt]

lemma dhStep_rowOf_start (sid : ℕ) (pt : StrokePoint) (S : List Stroke) (cur : Stroke)
    (m : ℤ) (hm : m ≠ (sid : ℤ)) (hcur : cur ≠ []) :
    dhStep ⟨S, cur, LastId.fromId m⟩ (dhRowOf sid pt)
      = Except.ok ⟨S ++ [cur], [canonPt pt], LastId.fromId (sid : ℤ)⟩ := by
  simp [dhStep, dhRowOf, canonPt, hm, hcur]

lemma dhImportFrom_cons (st : DHState) (r : CsvRow) (rest : List CsvRow) (st' : DHState)
    (h : dhStep st r = Except.ok st') :
    dhImportFrom st (r :: rest) = dhImportFrom st' rest := by
  simp only [dhImportFrom, List.foldlM_cons, h]
  rfl

lemma dhImportFrom_block_cont :
    ∀ (s : Stroke) (rest : List CsvRow) (S : List Stroke) (cur : Stroke) (sid : ℕ),
      dhImportFrom ⟨S, cur, LastId.fromId (sid : ℤ)⟩ (s.map (dhRowOf sid) ++ rest)
        = dhImportFrom ⟨S, cur ++ s.map canonPt, LastId.fromId (sid : ℤ)⟩ rest := by
  intro s
  induction s with
  | nil => intro rest S cur sid; simp
  | cons pt ps ih =>
    intro rest S cur sid
    rw [List.map_cons, List.cons_append,
      dhImportFrom_cons _ _ _ _ (dhStep_rowOf_cont sid pt S cur), ih]
    have hc : (cur ++ [canonPt pt]) ++ ps.map canonPt = cur ++ (pt :: ps).map canonPt := by
      simp
    rw [hc]

lemma dhImportFrom_rowsOf :
    ∀ (ss : List Stroke) (k : ℕ) (S : List Stroke) (cur : Stroke) (m : ℤ),
      (∀ s ∈ ss, s ≠ []) → m < (k : ℤ) → cur ≠ [] →
      dhImportFrom ⟨S, cur, LastId.fromId m⟩ (dhRowsOf k ss)
        = Except.ok ((S ++ [cur]) ++ ss.map (List.map canonPt)) := by
  intro ss
  induction ss with
  | nil =>
    intro k S cur m _ _ hcur
    simp [dhRowsOf, dhImportFrom, finalizeStrokes, hcur]
  | cons s rest ih =>
    intro k S cur m hne hmk hcur
    cases s with
    | nil => exact absurd rfl (hne [] (List.mem_cons_self [] rest))
    | cons p ps =>
      rw [dhRowsOf_cons, List.map_cons, List.cons_append,
        dhImportFrom_cons _ _ _ _
          (dhStep_rowOf_start k p S cur m (by omega) hcur),
        dhImportFrom_block_cont]
      have hc : [canonPt p] ++ ps.map canonPt = (p :: ps).map canonPt := by simp
      rw [hc, ih (k + 1) (S ++ [cur]) ((p :: ps).map canonPt) (k : ℤ)
        (fun s' hs' => hne s' (List.mem_cons_of_mem _ hs'))
        (by push_cast; omega) (by simp)]
      congr 1
      simp

lemma map_canonPt_id :
    ∀ (l : List Stroke), (∀ s ∈ l, ∀ pt ∈ s, canonPt pt = pt) →
      l.map (List.map canonPt) = l := by
  intro l
  induction l with
  | nil => intro _; rfl
  | cons s rest ih =>
    intro h
    rw [List.map_cons, ih (fun s' hs' => h s' (List.mem_cons_of_mem s hs'))]
    congr 1
    have hs := h s (List.mem_cons_self s rest)
    clear h ih
    induction s with
    | nil => rfl
    | cons pt ps ihs =>
      rw [List.map_cons, hs pt (List.mem_cons_self pt ps),
        ihs (fun q hq => hs q (List.mem_cons_of_mem pt hq))]

/-! ## Claim C1 -/

/-- C1 (amended): for PatternSets whose strokes are non-empty and
whose timestamp strings all parse as MM/DD/YYYY HH:MM, export followed
by modern-format import preserves the stroke count, each stroke's
point count, and each point's price exactly (hence within tolerance
0.01); each timestamp comes back as its canonical zero-padded
re-formatting `canonStr`, which equals the original string exactly
when the original is already canonical. -/
theorem c1_roundtrip_modern (strokes : List Stroke)
    (hne : ∀ s ∈ strokes, s ≠ [])
    (hp : ∀ s ∈ strokes, ∀ pt ∈ s, (parseMDYHM pt.1).isSome) :
    ∃ rows, dhExportPattern strokes = Except.ok rows ∧
      dhImportPattern rows = Except.ok (strokes.map (List.map canonPt)) ∧
      (strokes.map (List.map canonPt)).length = strokes.length ∧
      (∀ s ∈ strokes, (s.map canonPt).length = s.length) ∧
      (∀ s ∈ strokes, ∀ pt ∈ s, (canonPt pt).2 = pt.2 ∧ |(canonPt pt).2 - pt.2| ≤ 1 / 100) ∧
      ((∀ s ∈ strokes, ∀ pt ∈ s, canonPt pt = pt) →
        dhImportPattern rows = Except.ok strokes) := by
  have himp : dhImportPattern (dhRowsOf 0 strokes)
      = Except.ok (strokes.map (List.map canonPt)) := by
    cases strokes with
    | nil => rfl
    | cons s rest =>
      cases s with
      | nil => exact absurd rfl (hne [] (List.mem_cons_self [] rest))
      | cons p ps =>
        rw [dhImport_eq_from, dhRowsOf_cons, List.map_cons, List.cons_append,
          dhImportFrom_cons _ _ _ _ (dhStep_rowOf_first 0 p [] []),
          dhImportFrom_block_cont]
        have hc : ([] ++ [canonPt p]) ++ ps.map canonPt = (p :: ps).map canonPt := by simp
        rw [hc, dhImportFrom_rowsOf rest (0 + 1) [] ((p :: ps).map canonPt) ((0 : ℕ) : ℤ)
          (fun s' hs' => hne s' (List.mem_cons_of_mem _ hs'))
          (by norm_num) (by simp)]
        simp
  refine ⟨dhRowsOf 0 strokes, dhExportRows_eq strokes 0 hp, himp, by simp, by simp,
    fun s _ pt _ => ⟨rfl, by
      rw [show (canonPt pt).2 = pt.2 from rfl, sub_self, abs_zero]
      positivity⟩, fun hcanon => ?_⟩
  rw [himp, map_canonPt_id strokes hcanon]

/-- C1 witness: a concrete two-stroke pattern with canonical
timestamps round-trips to itself. -/
theorem c1_roundtrip_modern_witness :
    ∃ rows,
      dhExportPattern
        [[("03/12/2025 10:00", (560 : ℚ)), ("03/12/2025 10:30", 558)],
         [("03/12/2025 12:00", (555 : ℚ)), ("03/12/2025 12:30", 553)]] = Except.ok rows ∧
      dhImportPattern rows
        = Except.ok
            ([[("03/12/2025 10:00", (560 : ℚ)), ("03/12/2025 10:30", 558)],
              [("03/12/2025 12:00", (555 : ℚ)), ("03/12/2025 12:30", 553)]].map
                (List.map canonPt)) := by
  obtain ⟨rows, hexp, himp, -⟩ := c1_roundtrip_modern
    [[("03/12/2025 10:00", (560 : ℚ)), ("03/12/2025 10:30", 558)],
     [("03/12/2025 12:00", (555 : ℚ)), ("03/12/2025 12:30", 553)]]
    (by decide) (by decide)
  exact ⟨rows, hexp, himp⟩

/-- C1 counterexample: the timestamp string `"3/12/2025 9:30"` parses
under MM/DD/YYYY HH:MM, but export re-normalizes it to
`"03/12/2025 09:30"`, so the round-tripped PatternSet does not carry
the same datetime string. -/
theorem c1_counterexample :
    dhExportPattern [[("3/12/2025 9:30", 5)]]
      = Except.ok [⟨some 0, some "03/12/2025 09:30", some 5, some 5, some 5, some 5, some 0⟩] ∧
    dhImportPattern
        [⟨some 0, some "03/12/2025 09:30", some 5, some 5, some 5, some 5, some 0⟩]
      = Except.ok [[("03/12/2025 09:30", 5)]] ∧
    (parseMDYHM "3/12/2025 9:30").isSome = true ∧
    ("03/12/2025 09:30" : String) ≠ "3/12/2025 9:30" :=
  ⟨rfl, rfl, rfl, by decide⟩

end MarketData
